import Mathlib

/-!
Shallow embedding of the honeycomb infill generator (`src/honeycomb.py`) of the
cadquery-designs repository, together with proofs of the specification claims
about it.

Numbers are modelled as real numbers; CAD solids are modelled as subsets of
`ℝ × ℝ × ℝ` together with their axis-aligned bounding box, since the spec
treats a solid as an abstract value supporting boolean operations and a
bounding-box query.  Python string handling (`str.upper`) is modelled for the
ASCII range, which covers the axis names involved.
-/

/-- A point of 3-space, written `(x, y, z)`. -/
abbrev P3 : Type := ℝ × ℝ × ℝ

/-! ## Hex lattice generation (`_hex_centers`, honeycomb.py lines 54-75) -/

/-- Column/row count of the lattice: `max(1, int(math.ceil(span / step)) + 1)`
from lines 65-66 of honeycomb.py. -/
noncomputable def gridCount (span step : ℝ) : ℕ :=
  (max 1 (⌈span / step⌉ + 1)).toNat

/-- Number of lattice columns: `n_cols = max(1, ceil((width + 2*cell_size) / (1.5*cell_size)) + 1)`. -/
noncomputable def nCols (width cell_size : ℝ) : ℕ :=
  gridCount (width + 2 * cell_size) (1.5 * cell_size)

/-- Number of lattice rows: `n_rows = max(1, ceil((height + 2*cell_size) / (sqrt(3)*cell_size)) + 1)`. -/
noncomputable def nRows (height cell_size : ℝ) : ℕ :=
  gridCount (height + 2 * cell_size) (Real.sqrt 3 * cell_size)

/-- The `(x, y)` center emitted by `_hex_centers` for a given column and row:
`x = x0 + col * x_step`, `y = (y0_base + y_offset) + row * y_step`, with the
odd-column stagger of half the vertical pitch. -/
noncomputable def hexCenter (width height cell_size : ℝ) (col row : ℕ) : ℝ × ℝ :=
  (-(((nCols width cell_size : ℝ) - 1) * (1.5 * cell_size)) / 2 + (col : ℝ) * (1.5 * cell_size),
   -(((nRows height cell_size : ℝ) - 1) * (Real.sqrt 3 * cell_size)) / 2
     + (if col % 2 = 1 then Real.sqrt 3 * cell_size / 2 else 0)
     + (row : ℝ) * (Real.sqrt 3 * cell_size))

/-- `_hex_centers(width, height, cell_size)` (honeycomb.py lines 54-75): the
finite sequence of hexagon centers, yielded column by column and, inside a
column, row by row. -/
noncomputable def hexCenters (width height cell_size : ℝ) : List (ℝ × ℝ) :=
  let hexHeight := Real.sqrt 3 * cell_size
  let xStep := 1.5 * cell_size
  let yStep := hexHeight
  let cols := nCols width cell_size
  let rows := nRows height cell_size
  let x0 := -(((cols : ℝ) - 1) * xStep) / 2
  let y0Base := -(((rows : ℝ) - 1) * yStep) / 2
  (List.range cols).flatMap fun col =>
    let yOffset := if col % 2 = 1 then hexHeight / 2 else 0
    let y0 := y0Base + yOffset
    (List.range rows).map fun (row : ℕ) => (x0 + (col : ℝ) * xStep, y0 + (row : ℝ) * yStep)

/-! ## Hexagon prisms and `_honeycomb_grid` (honeycomb.py lines 77-104) -/

/-- The closed regular hexagon of circumradius `r` centered at the origin, as
built by `polygon(6, 2*r)`: the convex hull of six vertices on the circle of
radius `r`. -/
noncomputable def hexagonSet (r : ℝ) : Set (ℝ × ℝ) :=
  convexHull ℝ
    {p : ℝ × ℝ | ∃ k : Fin 6,
      p = (r * Real.cos ((k : ℕ) * (Real.pi / 3)), r * Real.sin ((k : ℕ) * (Real.pi / 3)))}

/-- The hexagonal prism produced by extruding a hexagon of circumradius `r`
centered at `center` symmetrically (`extrude(thickness/2, both=True)`). -/
noncomputable def hexPrism (center : ℝ × ℝ) (r t : ℝ) : Set P3 :=
  {q : P3 | (q.1 - center.1, q.2.1 - center.2) ∈ hexagonSet r ∧ |q.2.2| ≤ t / 2}

/-- The union of hexagon prisms over a list of centers, as produced by the
batch `pushPoints(centers).polygon(6, 2*r).extrude(...).combineSolids()`. -/
noncomputable def hexPrismUnion (centers : List (ℝ × ℝ)) (r t : ℝ) : Set P3 :=
  ⋃ p ∈ centers, hexPrism p r t

/-- The inner hexagon radius `inner_r = max(cell_size - edge_width / 2, 0)`
(honeycomb.py line 93). -/
noncomputable def innerR (cell_size edge_width : ℝ) : ℝ :=
  max (cell_size - edge_width / 2) 0

/-- Placement of a solid built on a named CadQuery workplane into world
coordinates: local `(x, y, normal)` axes map onto the world axes of the
named plane. -/
def planeEmbed (plane : String) (p : P3) : P3 :=
  if plane = "XY" then (p.1, p.2.1, p.2.2)
  else if plane = "YZ" then (p.2.2, p.1, p.2.1)
  else if plane = "XZ" then (p.1, -p.2.2, p.2.1)
  else p

/-- `_honeycomb_grid(width, height, cell_size, edge_width, thickness, plane)`
(honeycomb.py lines 77-104): the union of outer hexagon prisms over all
centers, minus the union of inner hexagon prisms whenever `inner_r > 0`. -/
noncomputable def honeycombGrid (width height cell_size edge_width thickness : ℝ)
    (plane : String) : Set P3 :=
  let centers := hexCenters width height cell_size
  if centers = [] then ∅
  else
    let outer := planeEmbed plane '' hexPrismUnion centers cell_size thickness
    if 0 < innerR cell_size edge_width then
      outer \ (planeEmbed plane '' hexPrismUnion centers (innerR cell_size edge_width) thickness)
    else outer

/-! ## Bounding boxes, solids and `_resolve_orientation` (honeycomb.py lines 106-142) -/

/-- Axis-aligned bounding box, mirroring the kernel `BoundingBox()` record. -/
structure BBox where
  xmin : ℝ
  xmax : ℝ
  ymin : ℝ
  ymax : ℝ
  zmin : ℝ
  zmax : ℝ

/-- Extent of the box along X (`bb.xlen`). -/
noncomputable def BBox.xlen (bb : BBox) : ℝ := bb.xmax - bb.xmin

/-- Extent of the box along Y (`bb.ylen`). -/
noncomputable def BBox.ylen (bb : BBox) : ℝ := bb.ymax - bb.ymin

/-- Extent of the box along Z (`bb.zlen`). -/
noncomputable def BBox.zlen (bb : BBox) : ℝ := bb.zmax - bb.zmin

/-- The dictionary `lengths = {"X": bb.xlen, "Y": bb.ylen, "Z": bb.zlen}`. -/
noncomputable def BBox.axisLen (bb : BBox) (a : String) : ℝ :=
  if a = "X" then bb.xlen else if a = "Y" then bb.ylen else bb.zlen

/-- The dictionary `centers` of bounding-box midpoints per axis. -/
noncomputable def BBox.axisCenter (bb : BBox) (a : String) : ℝ :=
  if a = "X" then (bb.xmin + bb.xmax) / 2
  else if a = "Y" then (bb.ymin + bb.ymax) / 2
  else (bb.zmin + bb.zmax) / 2

/-- Minimum bounding-box coordinate along a named axis. -/
noncomputable def BBox.axisMin (bb : BBox) (a : String) : ℝ :=
  if a = "X" then bb.xmin else if a = "Y" then bb.ymin else bb.zmin

/-- Maximum bounding-box coordinate along a named axis. -/
noncomputable def BBox.axisMax (bb : BBox) (a : String) : ℝ :=
  if a = "X" then bb.xmax else if a = "Y" then bb.ymax else bb.zmax

/-- The points inside a bounding box (the solid's bounding envelope). -/
def bboxSet (bb : BBox) : Set P3 :=
  {p : P3 | bb.xmin ≤ p.1 ∧ p.1 ≤ bb.xmax ∧ bb.ymin ≤ p.2.1 ∧ p.2.1 ≤ bb.ymax ∧
    bb.zmin ≤ p.2.2 ∧ p.2.2 ≤ bb.zmax}

/-- A CAD solid: an abstract region of space together with the bounding box
reported for it by the kernel. -/
structure Solid where
  region : Set P3
  bbox : BBox

/-- The `_AXIS_TO_PLANE` mapping (honeycomb.py lines 42-46); `none` models a
missing dictionary key. -/
def axisToPlane (a : String) : Option String :=
  if a = "X" then some "YZ" else if a = "Y" then some "XZ"
  else if a = "Z" then some "XY" else none

/-- The `_PLANE_AXES` mapping (honeycomb.py lines 48-52). -/
def planeAxes (p : String) : String × String :=
  if p = "XY" then ("X", "Y") else if p = "YZ" then ("Y", "Z") else ("X", "Z")

/-- Python `str.upper()` restricted to ASCII letters, as applied to axis
names: uppercase every character of the string. -/
def pyUpper (s : String) : String := ⟨s.data.map Char.toUpper⟩

/-- `min(lengths, key=lengths.get)` over the keys in insertion order
`X, Y, Z`: Python's `min` keeps the first key whose value is minimal, so a
later key wins only when strictly smaller. -/
noncomputable def pickMinAxis (bb : BBox) : String :=
  let m1 := if bb.axisLen "Y" < bb.axisLen "X" then "Y" else "X"
  if bb.axisLen "Z" < bb.axisLen m1 then "Z" else m1

/-- The record returned by `_resolve_orientation` (honeycomb.py lines 135-142). -/
structure Orient where
  plane : String
  width : ℝ
  height : ℝ
  thickness : ℝ
  translation : P3
  normal_axis : String

/-- Build the orientation record for a validated normal axis, mirroring
honeycomb.py lines 127-142: look up the plane, its in-plane axes, assemble
the translation dictionary by successive updates, and read it back as an
`(X, Y, Z)` tuple. -/
noncomputable def orientationFor (bb : BBox) (na : String) : Orient :=
  let plane := (axisToPlane na).getD "XY"
  let uv := planeAxes plane
  let t0 : String → ℝ := fun _ => 0
  let t1 := Function.update t0 uv.1 (bb.axisCenter uv.1)
  let t2 := Function.update t1 uv.2 (bb.axisCenter uv.2)
  let t3 := Function.update t2 na (bb.axisCenter na)
  { plane := plane
    width := bb.axisLen uv.1
    height := bb.axisLen uv.2
    thickness := bb.axisLen na
    translation := (t3 "X", t3 "Y", t3 "Z")
    normal_axis := na }

/-- `_resolve_orientation(solid, normal_axis)` (honeycomb.py lines 106-142):
with no override, pick the axis of minimum bounding-box extent; otherwise
uppercase the override and fail unless it names a recognized principal axis. -/
noncomputable def resolveOrientation (s : Solid) (normalAxis : Option String) :
    Except String Orient :=
  match normalAxis with
  | none => Except.ok (orientationFor s.bbox (pickMinAxis s.bbox))
  | some a =>
    let na := pyUpper a
    if (axisToPlane na).isSome then Except.ok (orientationFor s.bbox na)
    else Except.error ("normal_axis must be one of X, Y, Z (got " ++ na ++ ")")

/-! ## `apply_honeycomb` (honeycomb.py lines 144-174) -/

/-- Modelled from the spec: the kernel shell operation
`wall.faces(selector).shell(-shell_thickness, kind='intersection')` is not part
of this repository (it lives in the external geometry kernel), so it is
modelled from spec section 4.5 step 2: hollow the wall inward by
`shell_thickness` from its two faces normal to the resolved axis, keeping only
the material of the wall near those two faces. -/
noncomputable def shellOnly (wall : Solid) (a : String) (t : ℝ) : Set P3 :=
  wall.region ∩
    {p : P3 | (if a = "X" then p.1 else if a = "Y" then p.2.1 else p.2.2) ≤ wall.bbox.axisMin a + t ∨
      wall.bbox.axisMax a - t ≤ (if a = "X" then p.1 else if a = "Y" then p.2.1 else p.2.2)}

/-- Translation of a solid by a vector (`pattern.translate(...)`). -/
noncomputable def translateSet (v : P3) (s : Set P3) : Set P3 :=
  (fun p : P3 => (p.1 + v.1, p.2.1 + v.2.1, p.2.2 + v.2.2)) '' s

/-- `apply_honeycomb(wall, cell_size, edge_width, shell_thickness, normal_axis)`
(honeycomb.py lines 144-174): resolve the orientation, build the shell, build
the honeycomb pattern sized to the resolved width/height/thickness, translate
it onto the wall center, intersect with the wall and union with the shell. -/
noncomputable def applyHoneycomb (wall : Solid) (cell_size edge_width shell_thickness : ℝ)
    (normalAxis : Option String) : Except String (Set P3) :=
  match resolveOrientation wall normalAxis with
  | Except.error e => Except.error e
  | Except.ok o =>
    let shell := shellOnly wall o.normal_axis shell_thickness
    let pattern := translateSet o.translation
      (honeycombGrid o.width o.height cell_size edge_width o.thickness o.plane)
    Except.ok (shell ∪ (wall.region ∩ pattern))

/-! ## Concrete example solids used by the boundary-scenario claims -/

/-- The `100 × 60 × 5` wall bounding box of the spec's boundary scenario. -/
def wallBB : BBox := ⟨0, 100, 0, 60, 0, 5⟩

/-- A wall solid with bounding box `100 × 60 × 5`. -/
def wallSolid : Solid := ⟨bboxSet wallBB, wallBB⟩

/-- The `10 × 10 × 10` cube bounding box of the spec's tie-break scenario. -/
def cubeBB : BBox := ⟨0, 10, 0, 10, 0, 10⟩

/-- A cube solid with bounding box `10 × 10 × 10`. -/
def cubeSolid : Solid := ⟨bboxSet cubeBB, cubeBB⟩

/-- A second solid sharing the cube's bounding box but with a different
region, witnessing that the orientation resolver depends only on the box. -/
def cubeSolidAlt : Solid := ⟨∅, cubeBB⟩

/-- The solid produced by `apply_honeycomb(cubeSolid, 20, 8, 1)`, written out:
the shell of the cube unioned with the intersection of the cube and the
translated honeycomb pattern. -/
noncomputable def exampleOut : Set P3 :=
  shellOnly cubeSolid (orientationFor cubeBB (pickMinAxis cubeBB)).normal_axis 1 ∪
    (cubeSolid.region ∩ translateSet (orientationFor cubeBB (pickMinAxis cubeBB)).translation
      (honeycombGrid (orientationFor cubeBB (pickMinAxis cubeBB)).width
        (orientationFor cubeBB (pickMinAxis cubeBB)).height 20 8
        (orientationFor cubeBB (pickMinAxis cubeBB)).thickness
        (orientationFor cubeBB (pickMinAxis cubeBB)).plane))

/-! ## Structural lemmas about the lattice -/

/-- `_hex_centers` enumerates, column-major, the closed-form centers. -/
theorem hexCenters_eq_flatMap (w h c : ℝ) :
    hexCenters w h c =
      (List.range (nCols w c)).flatMap fun col =>
        (List.range (nRows h c)).map (hexCenter w h c col) := by
  unfold hexCenters hexCenter
  rfl

/-- At least one column and one row are always generated. -/
theorem gridCount_pos (span step : ℝ) : 1 ≤ gridCount span step := by
  have h : (1 : ℤ) ≤ max 1 (⌈span / step⌉ + 1) := le_max_left _ _
  simp only [gridCount]
  exact Int.toNat_le_toNat h

/-- For positive span and step, the generated count is at least 2 and the
lattice extent `(count - 1) * step` covers the span. -/
theorem gridCount_spec (span step : ℝ) (hspan : 0 < span) (hstep : 0 < step) :
    2 ≤ gridCount span step ∧ span ≤ ((gridCount span step : ℝ) - 1) * step := by
  have hq : 0 < span / step := div_pos hspan hstep
  have hceil : (1 : ℤ) ≤ ⌈span / step⌉ := Int.ceil_pos.mpr hq
  have hmax : max 1 (⌈span / step⌉ + 1) = ⌈span / step⌉ + 1 := max_eq_right (by omega)
  have hcast : ((gridCount span step : ℕ) : ℝ) = (⌈span / step⌉ : ℝ) + 1 := by
    have h0 : (0 : ℤ) ≤ ⌈span / step⌉ + 1 := by omega
    rw [gridCount, hmax]
    rw [show (((⌈span / step⌉ + 1).toNat : ℕ) : ℝ) = ((⌈span / step⌉ + 1 : ℤ) : ℝ) by
      exact_mod_cast congrArg (Int.cast : ℤ → ℝ) (Int.toNat_of_nonneg h0)]
    push_cast
    ring
  refine ⟨?_, ?_⟩
  · have h2 : (2 : ℤ) ≤ max 1 (⌈span / step⌉ + 1) := by omega
    simpa [gridCount] using Int.toNat_le_toNat h2
  · have hle : span / step ≤ (⌈span / step⌉ : ℝ) := Int.le_ceil _
    have hle2 : span / step ≤ ((gridCount span step : ℕ) : ℝ) - 1 := by
      rw [hcast]; linarith
    calc span = span / step * step := by field_simp
      _ ≤ (((gridCount span step : ℕ) : ℝ) - 1) * step :=
        mul_le_mul_of_nonneg_right hle2 hstep.le

/-- Membership in the generated list of centers. -/
theorem mem_hexCenters (w h c : ℝ) (q : ℝ × ℝ) :
    q ∈ hexCenters w h c ↔
      ∃ col < nCols w c, ∃ row < nRows h c, q = hexCenter w h c col row := by
  rw [hexCenters_eq_flatMap]
  simp only [List.mem_flatMap, List.mem_map, List.mem_range]
  constructor
  · rintro ⟨col, hcol, row, hrow, rfl⟩
    exact ⟨col, hcol, row, hrow, rfl⟩
  · rintro ⟨col, hcol, row, hrow, rfl⟩
    exact ⟨col, hcol, row, hrow, rfl⟩

/-- The list of centers is never empty. -/
theorem hexCenters_ne_nil (w h c : ℝ) : hexCenters w h c ≠ [] :=
  List.ne_nil_of_mem ((mem_hexCenters w h c _).mpr
    ⟨0, gridCount_pos _ _, 0, gridCount_pos _ _, rfl⟩)

/-- Length of a flatMap of constant-size blocks. -/
theorem flatMap_block_length {α : Type} (f : ℕ → ℕ → α) (n m : ℕ) :
    ((List.range n).flatMap fun i => (List.range m).map (f i)).length = n * m := by
  induction n with
  | zero => simp
  | succ k ih =>
    rw [List.range_succ, List.flatMap_append, List.flatMap_singleton]
    simp [ih, Nat.succ_mul]

/-- Indexing into a flatMap of constant-size blocks. -/
theorem flatMap_block_getElem {α : Type} (f : ℕ → ℕ → α) (n m i j : ℕ)
    (hi : i < n) (hj : j < m) :
    ((List.range n).flatMap fun x => (List.range m).map (f x))[i * m + j]? = some (f i j) := by
  induction n with
  | zero => omega
  | succ k ih =>
    rw [List.range_succ, List.flatMap_append, List.flatMap_singleton]
    by_cases hik : i < k
    · rw [List.getElem?_append, if_pos]
      · exact ih hik
      · rw [flatMap_block_length]
        have h2 : (i + 1) * m ≤ k * m := Nat.mul_le_mul_right m hik
        rw [Nat.succ_mul] at h2
        omega
    · have hik2 : i = k := by omega
      subst hik2
      rw [List.getElem?_append_right]
      · rw [flatMap_block_length]
        have hidx : i * m + j - i * m = j := by omega
        rw [hidx, List.getElem?_map, List.getElem?_range hj, Option.map_some']
      · rw [flatMap_block_length]
        omega

/-- C2: for every width, height and positive cell size, `_hex_centers` yields a
finite sequence in column-major then row order: it has `n_cols * n_rows`
entries, the entry at position `col * n_rows + row` is the closed-form center
of that column and row, consecutive columns are spaced `1.5 * cell_size` apart
in x, consecutive rows within a column are spaced `sqrt(3) * cell_size` apart
in y, and every odd column's y coordinates are offset by exactly half the
vertical pitch (`sqrt(3) * cell_size / 2`) relative to even columns. -/
theorem hexCenters_column_major (w h c : ℝ) :
    (hexCenters w h c).length = nCols w c * nRows h c ∧
    (∀ col row : ℕ, col < nCols w c → row < nRows h c →
      (hexCenters w h c)[col * nRows h c + row]? = some (hexCenter w h c col row)) ∧
    (∀ col row : ℕ,
      (hexCenter w h c (col + 1) row).1 - (hexCenter w h c col row).1 = 1.5 * c) ∧
    (∀ col row : ℕ,
      (hexCenter w h c col (row + 1)).2 - (hexCenter w h c col row).2 = Real.sqrt 3 * c) ∧
    (∀ colOdd colEven row : ℕ, colOdd % 2 = 1 → colEven % 2 = 0 →
      (hexCenter w h c colOdd row).2 =
        (hexCenter w h c colEven row).2 + Real.sqrt 3 * c / 2) := by
  refine ⟨?_, ?_, ?_, ?_, ?_⟩
  · rw [hexCenters_eq_flatMap]
    exact flatMap_block_length _ _ _
  · intro col row hcol hrow
    rw [hexCenters_eq_flatMap]
    exact flatMap_block_getElem _ _ _ col row hcol hrow
  · intro col row
    simp only [hexCenter]
    push_cast
    ring
  · intro col row
    simp only [hexCenter]
    push_cast
    ring
  · intro colOdd colEven row hodd heven
    simp only [hexCenter, hodd, heven]
    norm_num
    ring

/-- Witness for C2 at concrete inputs. -/
theorem hexCenters_column_major_witness :
    (hexCenters 1 1 1)[0 * nRows 1 1 + 0]? = some (hexCenter 1 1 1 0 0) ∧
    (hexCenter 1 1 1 1 0).2 = (hexCenter 1 1 1 0 0).2 + Real.sqrt 3 * 1 / 2 :=
  ⟨(hexCenters_column_major 1 1 1).2.1 0 0 (gridCount_pos _ _) (gridCount_pos _ _),
   (hexCenters_column_major 1 1 1).2.2.2.2 1 0 0 rfl rfl⟩

/-- C3: for positive width, height and cell size the lattice has at least one
column and one row; the number of distinct x coordinates among the generated
centers is exactly `n_cols = max(1, ceil((width + 2*cell_size)/(1.5*cell_size)) + 1)`,
the number of distinct y coordinates within each column is exactly
`n_rows = max(1, ceil((height + 2*cell_size)/(sqrt(3)*cell_size)) + 1)`, and in
particular for `cell_size = 20`, `width = 100` the number of columns is at
least 6. -/
theorem hexCenters_lattice_counts (w h c : ℝ) (_hw : 0 < w) (_hh : 0 < h) (hc : 0 < c) :
    1 ≤ nCols w c ∧ 1 ≤ nRows h c ∧
    ((hexCenters w h c).map Prod.fst).toFinset.card = nCols w c ∧
    (∀ x ∈ ((hexCenters w h c).map Prod.fst).toFinset,
      (((hexCenters w h c).toFinset.filter (fun q => q.1 = x)).image Prod.snd).card
        = nRows h c) ∧
    6 ≤ nCols 100 20 := by
  have hstep : (0 : ℝ) < 1.5 * c := by linarith
  have hs3 : (0 : ℝ) < Real.sqrt 3 := Real.sqrt_pos.mpr (by norm_num)
  have hystep : (0 : ℝ) < Real.sqrt 3 * c := mul_pos hs3 hc
  refine ⟨gridCount_pos _ _, gridCount_pos _ _, ?_, ?_, ?_⟩
  · have himg : ((hexCenters w h c).map Prod.fst).toFinset =
        (Finset.range (nCols w c)).image (fun col : ℕ => (hexCenter w h c col 0).1) := by
      ext x
      simp only [List.mem_toFinset, List.mem_map, Finset.mem_image, Finset.mem_range]
      constructor
      · rintro ⟨q, hq, rfl⟩
        rcases (mem_hexCenters w h c q).mp hq with ⟨col, hcol, row, hrow, rfl⟩
        exact ⟨col, hcol, rfl⟩
      · rintro ⟨col, hcol, rfl⟩
        exact ⟨hexCenter w h c col 0,
          (mem_hexCenters w h c _).mpr ⟨col, hcol, 0, gridCount_pos _ _, rfl⟩, rfl⟩
    rw [himg, Finset.card_image_of_injOn, Finset.card_range]
    intro a _ b _ hab
    simp only [hexCenter] at hab
    have h2 : (a : ℝ) * (1.5 * c) = (b : ℝ) * (1.5 * c) := by linarith
    exact_mod_cast mul_right_cancel₀ (ne_of_gt hstep) h2
  · intro x hx
    simp only [List.mem_toFinset, List.mem_map] at hx
    rcases hx with ⟨q, hq, rfl⟩
    rcases (mem_hexCenters w h c q).mp hq with ⟨col, hcol, row, hrow, rfl⟩
    have himg : ((hexCenters w h c).toFinset.filter
          (fun q2 => q2.1 = (hexCenter w h c col row).1)).image Prod.snd =
        (Finset.range (nRows h c)).image (fun r : ℕ => (hexCenter w h c col r).2) := by
      ext y
      simp only [Finset.mem_image, Finset.mem_filter, List.mem_toFinset, Finset.mem_range]
      constructor
      · rintro ⟨q2, ⟨hq2, hq2x⟩, rfl⟩
        rcases (mem_hexCenters w h c q2).mp hq2 with ⟨col2, hcol2, row2, hrow2, rfl⟩
        have hcc : col2 = col := by
          simp only [hexCenter] at hq2x
          have h2 : (col2 : ℝ) * (1.5 * c) = (col : ℝ) * (1.5 * c) := by linarith
          exact_mod_cast mul_right_cancel₀ (ne_of_gt hstep) h2
        subst hcc
        exact ⟨row2, hrow2, rfl⟩
      · rintro ⟨r, hr, rfl⟩
        exact ⟨hexCenter w h c col r,
          ⟨(mem_hexCenters w h c _).mpr ⟨col, hcol, r, hr, rfl⟩, rfl⟩, rfl⟩
    rw [himg, Finset.card_image_of_injOn, Finset.card_range]
    intro r1 _ r2 _ hr12
    simp only [hexCenter] at hr12
    have h2 : (r1 : ℝ) * (Real.sqrt 3 * c) = (r2 : ℝ) * (Real.sqrt 3 * c) := by linarith
    exact_mod_cast mul_right_cancel₀ (ne_of_gt hystep) h2
  · have h4 : (4 : ℤ) < ⌈(100 + 2 * 20 : ℝ) / (1.5 * 20)⌉ := by
      rw [Int.lt_ceil]
      norm_num
    have h6 : (6 : ℤ) ≤ max 1 (⌈(100 + 2 * 20 : ℝ) / (1.5 * 20)⌉ + 1) := by omega
    simp only [nCols, gridCount]
    exact Int.toNat_le_toNat h6

/-- Witness for C3 at concrete inputs. -/
theorem hexCenters_lattice_counts_witness :
    1 ≤ nCols 1 1 ∧ 6 ≤ nCols 100 20 := by
  have h := hexCenters_lattice_counts 1 1 1 (by norm_num) (by norm_num) (by norm_num)
  exact ⟨h.1, h.2.2.2.2⟩

/-- The origin lies in every hexagon (it is the midpoint of two opposite
vertices). -/
theorem zero_mem_hexagonSet (r : ℝ) : ((0 : ℝ), (0 : ℝ)) ∈ hexagonSet r := by
  unfold hexagonSet
  have hv0 : ((r, 0) : ℝ × ℝ) ∈ {p : ℝ × ℝ | ∃ k : Fin 6,
      p = (r * Real.cos ((k : ℕ) * (Real.pi / 3)), r * Real.sin ((k : ℕ) * (Real.pi / 3)))} := by
    refine ⟨0, ?_⟩
    simp [Real.cos_zero, Real.sin_zero]
  have hv3 : ((-r, 0) : ℝ × ℝ) ∈ {p : ℝ × ℝ | ∃ k : Fin 6,
      p = (r * Real.cos ((k : ℕ) * (Real.pi / 3)), r * Real.sin ((k : ℕ) * (Real.pi / 3)))} := by
    refine ⟨3, ?_⟩
    have h3 : (((3 : Fin 6) : ℕ) : ℝ) * (Real.pi / 3) = Real.pi := by
      rw [show ((3 : Fin 6) : ℕ) = 3 from rfl]
      push_cast
      ring
    rw [h3, Real.cos_pi, Real.sin_pi]
    simp
  have hseg := @segment_subset_convexHull ℝ (ℝ × ℝ) _ _ _ _ _ _ hv0 hv3
  apply hseg
  refine ⟨1 / 2, 1 / 2, by norm_num, by norm_num, by norm_num, ?_⟩
  simp only [Prod.smul_mk, smul_eq_mul, Prod.mk_add_mk, Prod.mk.injEq]
  constructor <;> ring

/-- C4: whenever `edge_width ≥ 2 * cell_size`, the inner radius collapses to 0,
`_honeycomb_grid` applies no inner cut, and the result is exactly the plain
union of outer hexagon prisms (hence equal volume); the degenerate case is
handled, not an error. -/
theorem honeycombGrid_degenerate (w h c e t : ℝ) (pl : String) (_hc : 0 < c)
    (he : 2 * c ≤ e) :
    innerR c e = 0 ∧
    honeycombGrid w h c e t pl = planeEmbed pl '' hexPrismUnion (hexCenters w h c) c t ∧
    MeasureTheory.volume (honeycombGrid w h c e t pl) =
      MeasureTheory.volume (planeEmbed pl '' hexPrismUnion (hexCenters w h c) c t) := by
  have h0 : innerR c e = 0 := by
    unfold innerR
    rw [max_eq_right]
    linarith
  have hset : honeycombGrid w h c e t pl =
      planeEmbed pl '' hexPrismUnion (hexCenters w h c) c t := by
    simp only [honeycombGrid]
    rw [if_neg (hexCenters_ne_nil w h c), h0, if_neg (lt_irrefl 0)]
  exact ⟨h0, hset, congrArg _ hset⟩

/-- Witness for C4 at concrete inputs. -/
theorem honeycombGrid_degenerate_witness :
    innerR 1 2 = 0 ∧
    honeycombGrid 1 1 1 2 1 "XY" = planeEmbed "XY" '' hexPrismUnion (hexCenters 1 1 1) 1 1 := by
  have h := honeycombGrid_degenerate 1 1 1 2 1 "XY" one_pos (by norm_num)
  exact ⟨h.1, h.2.1⟩

/-- With `edge_width = 0` the inner radius equals the outer radius, the cut
branch is taken, and cutting the union of hexagon prisms by itself leaves the
empty set. -/
theorem honeycombGrid_edge_zero_empty (w h c t : ℝ) (pl : String) (hc : 0 < c) :
    honeycombGrid w h c 0 t pl = ∅ := by
  have h0 : innerR c 0 = c := by
    unfold innerR
    rw [show c - 0 / 2 = c by ring]
    exact max_eq_left hc.le
  simp only [honeycombGrid]
  rw [if_neg (hexCenters_ne_nil w h c), h0, if_pos hc, Set.diff_self]

/-- C5 (amended): when `edge_width = 0` the inner radius is
`max(cell_size - 0, 0) = cell_size > 0`, so `_honeycomb_grid` DOES apply the
cut, with the inner hexagons equal to the outer ones; the result is the empty
set (a degenerate zero-volume cut), not a solid hexagon prism with no cut. -/
theorem honeycombGrid_edge_zero (w h c t : ℝ) (pl : String) (hc : 0 < c) :
    innerR c 0 = c ∧ honeycombGrid w h c 0 t pl = ∅ := by
  refine ⟨?_, honeycombGrid_edge_zero_empty w h c t pl hc⟩
  unfold innerR
  rw [show c - 0 / 2 = c by ring]
  exact max_eq_left hc.le

/-- Witness for the amended C5 at concrete inputs. -/
theorem honeycombGrid_edge_zero_witness :
    innerR 1 0 = 1 ∧ honeycombGrid 2 3 1 0 1 "XY" = ∅ :=
  honeycombGrid_edge_zero 2 3 1 1 "XY" one_pos

/-- C5 counterexample: at `width = height = cell_size = thickness = 1` on
plane `XY` with `edge_width = 0`, the solid built by `_honeycomb_grid` is NOT
the plain no-cut union of solid hexagon prisms: the code takes the cut branch
and produces the empty set, while the union of prisms is nonempty. -/
theorem honeycombGrid_edge_zero_counterexample :
    honeycombGrid 1 1 1 0 1 "XY" ≠
      planeEmbed "XY" '' hexPrismUnion (hexCenters 1 1 1) 1 1 := by
  rw [honeycombGrid_edge_zero_empty 1 1 1 1 "XY" one_pos]
  intro hEq
  have hp : ((hexCenter 1 1 1 0 0).1, (hexCenter 1 1 1 0 0).2, (0 : ℝ)) ∈
      hexPrismUnion (hexCenters 1 1 1) 1 1 := by
    refine Set.mem_biUnion
      ((mem_hexCenters 1 1 1 _).mpr ⟨0, gridCount_pos _ _, 0, gridCount_pos _ _, rfl⟩) ?_
    constructor
    · simpa using zero_mem_hexagonSet 1
    · norm_num
  have hmem : planeEmbed "XY" ((hexCenter 1 1 1 0 0).1, (hexCenter 1 1 1 0 0).2, (0 : ℝ)) ∈
      (∅ : Set P3) := by
    rw [hEq]
    exact Set.mem_image_of_mem _ hp
  exact absurd hmem (Set.not_mem_empty _)

/-! ## Orientation resolver claims -/

/-- ASCII uppercasing is idempotent on characters. -/
theorem charToUpper_idem (c : Char) : c.toUpper.toUpper = c.toUpper := by
  by_cases h : c.toNat ≥ 97 ∧ c.toNat ≤ 122
  · have hvalid : (c.toNat - 32).isValidChar := Or.inl (by omega)
    have h1 : c.toUpper = Char.ofNat (c.toNat - 32) := by
      rw [Char.toUpper]
      exact if_pos h
    have hval : (Char.ofNat (c.toNat - 32)).toNat = c.toNat - 32 := by
      rw [Char.ofNat, dif_pos hvalid]
      rfl
    rw [h1, Char.toUpper, if_neg]
    rw [hval]
    omega
  · have h1 : c.toUpper = c := by
      rw [Char.toUpper]
      exact if_neg h
    rw [h1, h1]

/-- `str.upper()` is idempotent. -/
theorem pyUpper_idem (s : String) : pyUpper (pyUpper s) = pyUpper s := by
  unfold pyUpper
  have hdata : (⟨s.data.map Char.toUpper⟩ : String).data = s.data.map Char.toUpper := rfl
  rw [hdata, List.map_map]
  have hfun : Char.toUpper ∘ Char.toUpper = Char.toUpper := funext charToUpper_idem
  rw [hfun]

/-- The `_AXIS_TO_PLANE` lookup succeeds exactly on the three axis names. -/
theorem axisToPlane_isSome_iff (a : String) :
    (axisToPlane a).isSome = true ↔ a ∈ (["X", "Y", "Z"] : List String) := by
  unfold axisToPlane
  by_cases h1 : a = "X" <;> by_cases h2 : a = "Y" <;> by_cases h3 : a = "Z" <;>
    simp [h1, h2, h3]

/-- Unfolded form of the two-step Python `min` fold over the axis keys. -/
theorem pickMinAxis_eq (bb : BBox) :
    pickMinAxis bb =
      if bb.axisLen "Z" < bb.axisLen (if bb.axisLen "Y" < bb.axisLen "X" then "Y" else "X")
      then "Z" else (if bb.axisLen "Y" < bb.axisLen "X" then "Y" else "X") := rfl

/-- The axis lengths looked up by name. -/
theorem axisLen_names (bb : BBox) :
    bb.axisLen "X" = bb.xlen ∧ bb.axisLen "Y" = bb.ylen ∧ bb.axisLen "Z" = bb.zlen := by
  refine ⟨?_, ?_, ?_⟩ <;> simp [BBox.axisLen]

/-- Case analysis for the auto-selected minimum axis: it is always one of the
three names, and its extent is minimal among the three. -/
theorem pickMinAxis_cases (bb : BBox) :
    (pickMinAxis bb = "X" ∧ bb.xlen ≤ bb.ylen ∧ bb.xlen ≤ bb.zlen) ∨
    (pickMinAxis bb = "Y" ∧ bb.ylen ≤ bb.xlen ∧ bb.ylen ≤ bb.zlen) ∨
    (pickMinAxis bb = "Z" ∧ bb.zlen ≤ bb.xlen ∧ bb.zlen ≤ bb.ylen) := by
  obtain ⟨hX, hY, hZ⟩ := axisLen_names bb
  rw [pickMinAxis_eq, hX, hY]
  by_cases h1 : bb.ylen < bb.xlen
  · rw [if_pos h1, hY, hZ]
    by_cases h2 : bb.zlen < bb.ylen
    · rw [if_pos h2]
      exact Or.inr (Or.inr ⟨rfl, by linarith, by linarith⟩)
    · rw [if_neg h2]
      exact Or.inr (Or.inl ⟨rfl, by linarith, by linarith⟩)
  · rw [if_neg h1, hX, hZ]
    by_cases h2 : bb.zlen < bb.xlen
    · rw [if_pos h2]
      exact Or.inr (Or.inr ⟨rfl, by linarith, by linarith⟩)
    · rw [if_neg h2]
      exact Or.inl ⟨rfl, by linarith, by linarith⟩

/-- The auto-selected axis is one of the three axis names. -/
theorem pickMinAxis_mem (bb : BBox) : pickMinAxis bb ∈ (["X", "Y", "Z"] : List String) := by
  rcases pickMinAxis_cases bb with ⟨h, _⟩ | ⟨h, _⟩ | ⟨h, _⟩ <;> simp [h]

/-- Fields of the orientation record when the normal axis is X. -/
theorem orientationFor_fields_X (bb : BBox) :
    (orientationFor bb "X").normal_axis = "X" ∧ (orientationFor bb "X").thickness = bb.xlen ∧
    (orientationFor bb "X").width = bb.ylen ∧ (orientationFor bb "X").height = bb.zlen := by
  refine ⟨rfl, ?_, ?_, ?_⟩ <;> simp [orientationFor, planeAxes, axisToPlane, BBox.axisLen]

/-- Fields of the orientation record when the normal axis is Y. -/
theorem orientationFor_fields_Y (bb : BBox) :
    (orientationFor bb "Y").normal_axis = "Y" ∧ (orientationFor bb "Y").thickness = bb.ylen ∧
    (orientationFor bb "Y").width = bb.xlen ∧ (orientationFor bb "Y").height = bb.zlen := by
  refine ⟨rfl, ?_, ?_, ?_⟩ <;> simp [orientationFor, planeAxes, axisToPlane, BBox.axisLen]

/-- Fields of the orientation record when the normal axis is Z. -/
theorem orientationFor_fields_Z (bb : BBox) :
    (orientationFor bb "Z").normal_axis = "Z" ∧ (orientationFor bb "Z").thickness = bb.zlen ∧
    (orientationFor bb "Z").width = bb.xlen ∧ (orientationFor bb "Z").height = bb.ylen := by
  refine ⟨rfl, ?_, ?_, ?_⟩ <;> simp [orientationFor, planeAxes, axisToPlane, BBox.axisLen]

/-- C6: `_resolve_orientation` raises its `InvalidAxis` error if and only if a
normal-axis override is supplied and its uppercased form does not name one of
the recognized principal axes X, Y, Z; with no override, or a recognized
override, it returns normally. -/
theorem resolveOrientation_error_iff (s : Solid) (o : Option String) :
    (∃ e, resolveOrientation s o = Except.error e) ↔
      ∃ a, o = some a ∧ pyUpper a ∉ (["X", "Y", "Z"] : List String) := by
  cases o with
  | none => simp [resolveOrientation]
  | some a =>
    simp only [resolveOrientation]
    by_cases hv : (axisToPlane (pyUpper a)).isSome = true
    · rw [if_pos hv]
      constructor
      · rintro ⟨e, he⟩
        exact absurd he (by simp)
      · rintro ⟨a2, ha2, hmem⟩
        injection ha2 with ha2
        subst ha2
        exact absurd ((axisToPlane_isSome_iff _).mp hv) hmem
    · rw [if_neg hv]
      constructor
      · intro _
        refine ⟨a, rfl, fun hmem => hv ((axisToPlane_isSome_iff _).mpr hmem)⟩
      · intro _
        exact ⟨_, rfl⟩

/-- Witness for C6: an unrecognized override fails, a recognized one succeeds. -/
theorem resolveOrientation_error_iff_witness :
    (∃ e, resolveOrientation wallSolid (some "Q") = Except.error e) ∧
    ¬∃ e, resolveOrientation wallSolid (some "x") = Except.error e := by
  constructor
  · exact (resolveOrientation_error_iff wallSolid (some "Q")).mpr ⟨"Q", rfl, by decide⟩
  · intro hcon
    rcases (resolveOrientation_error_iff wallSolid (some "x")).mp hcon with ⟨a, ha, hmem⟩
    injection ha with ha
    subst ha
    exact hmem (by decide)

/-- C7: with no override, the resolved normal axis has minimal bounding-box
extent among the three principal axes; the returned width and height are the
extents along the other two axes and the thickness is the extent along the
chosen axis.  For the `100 × 60 × 5` wall the resolved axis is Z with
thickness 5. -/
theorem resolveOrientation_auto_min :
    (∀ s : Solid, ∃ r, resolveOrientation s none = Except.ok r ∧
      r.thickness ≤ s.bbox.xlen ∧ r.thickness ≤ s.bbox.ylen ∧ r.thickness ≤ s.bbox.zlen ∧
      ((r.normal_axis = "X" ∧ r.thickness = s.bbox.xlen ∧
          r.width = s.bbox.ylen ∧ r.height = s.bbox.zlen) ∨
       (r.normal_axis = "Y" ∧ r.thickness = s.bbox.ylen ∧
          r.width = s.bbox.xlen ∧ r.height = s.bbox.zlen) ∨
       (r.normal_axis = "Z" ∧ r.thickness = s.bbox.zlen ∧
          r.width = s.bbox.xlen ∧ r.height = s.bbox.ylen))) ∧
    (∃ r2, resolveOrientation wallSolid none = Except.ok r2 ∧
      r2.normal_axis = "Z" ∧ r2.thickness = 5) := by
  have main : ∀ s : Solid, ∃ r, resolveOrientation s none = Except.ok r ∧
      r.thickness ≤ s.bbox.xlen ∧ r.thickness ≤ s.bbox.ylen ∧ r.thickness ≤ s.bbox.zlen ∧
      ((r.normal_axis = "X" ∧ r.thickness = s.bbox.xlen ∧
          r.width = s.bbox.ylen ∧ r.height = s.bbox.zlen) ∨
       (r.normal_axis = "Y" ∧ r.thickness = s.bbox.ylen ∧
          r.width = s.bbox.xlen ∧ r.height = s.bbox.zlen) ∨
       (r.normal_axis = "Z" ∧ r.thickness = s.bbox.zlen ∧
          r.width = s.bbox.xlen ∧ r.height = s.bbox.ylen)) := by
    intro s
    refine ⟨orientationFor s.bbox (pickMinAxis s.bbox), rfl, ?_⟩
    rcases pickMinAxis_cases s.bbox with ⟨hax, hle1, hle2⟩ | ⟨hax, hle1, hle2⟩ | ⟨hax, hle1, hle2⟩
    · rw [hax]
      obtain ⟨hna, hth, hwd, hht⟩ := orientationFor_fields_X s.bbox
      rw [hth]
      exact ⟨le_refl _, hle1, hle2, Or.inl ⟨hna, rfl, hwd, hht⟩⟩
    · rw [hax]
      obtain ⟨hna, hth, hwd, hht⟩ := orientationFor_fields_Y s.bbox
      rw [hth]
      exact ⟨hle1, le_refl _, hle2, Or.inr (Or.inl ⟨hna, rfl, hwd, hht⟩)⟩
    · rw [hax]
      obtain ⟨hna, hth, hwd, hht⟩ := orientationFor_fields_Z s.bbox
      rw [hth]
      exact ⟨hle1, hle2, le_refl _, Or.inr (Or.inr ⟨hna, rfl, hwd, hht⟩)⟩
  refine ⟨main, ?_⟩
  rcases main wallSolid with ⟨r2, hok, hx, hy, hz, hcases⟩
  have hxlen : wallSolid.bbox.xlen = 100 := by
    simp [wallSolid, wallBB, BBox.xlen]
  have hylen : wallSolid.bbox.ylen = 60 := by
    simp [wallSolid, wallBB, BBox.ylen]
  have hzlen : wallSolid.bbox.zlen = 5 := by
    simp [wallSolid, wallBB, BBox.zlen]
  rcases hcases with ⟨hna, hth, _⟩ | ⟨hna, hth, _⟩ | ⟨hna, hth, _⟩
  · rw [hxlen] at hth
    rw [hylen] at hy
    rw [hth] at hy
    linarith
  · rw [hylen] at hth
    rw [hzlen] at hz
    rw [hth] at hz
    linarith
  · exact ⟨r2, hok, hna, by rw [hth, hzlen]⟩

/-- C8: the orientation resolver is a pure function of the bounding box and
override — two solids with equal bounding boxes resolve identically — and on
the `10 × 10 × 10` cube, where no unique minimum extent exists, the tie-break
stably returns axis X. -/
theorem resolveOrientation_pure (s1 s2 : Solid) (o : Option String)
    (hbb : s1.bbox = s2.bbox) :
    resolveOrientation s1 o = resolveOrientation s2 o ∧
    ∃ r, resolveOrientation cubeSolid none = Except.ok r ∧ r.normal_axis = "X" := by
  constructor
  · cases o <;> simp only [resolveOrientation, hbb]
  · refine ⟨orientationFor cubeBB (pickMinAxis cubeBB), rfl, ?_⟩
    show pickMinAxis cubeBB = "X"
    obtain ⟨hX, hY, hZ⟩ := axisLen_names cubeBB
    rw [pickMinAxis_eq, hX, hY]
    have h10x : cubeBB.xlen = 10 := by simp [cubeBB, BBox.xlen]
    have h10y : cubeBB.ylen = 10 := by simp [cubeBB, BBox.ylen]
    rw [h10x, h10y, if_neg (lt_irrefl (10 : ℝ)), hX, hZ, h10x]
    rw [show cubeBB.zlen = 10 by simp [cubeBB, BBox.zlen]]
    rw [if_neg (lt_irrefl (10 : ℝ))]

/-- Witness for C8: two different solids sharing the cube bounding box. -/
theorem resolveOrientation_pure_witness :
    resolveOrientation cubeSolid none = resolveOrientation cubeSolidAlt none ∧
    ∃ r, resolveOrientation cubeSolid none = Except.ok r ∧ r.normal_axis = "X" :=
  resolveOrientation_pure cubeSolid cubeSolidAlt none rfl

/-- C10: the override is case-insensitive — any override resolves exactly as
its uppercased form does — and every successful resolution reports one of the
uppercase axis names X, Y, Z. -/
theorem resolveOrientation_case_insensitive (s : Solid) (a : String) :
    resolveOrientation s (some a) = resolveOrientation s (some (pyUpper a)) ∧
    ∀ o r, resolveOrientation s o = Except.ok r →
      r.normal_axis ∈ (["X", "Y", "Z"] : List String) := by
  constructor
  · simp only [resolveOrientation, pyUpper_idem]
  · intro o r hr
    cases o with
    | none =>
      simp only [resolveOrientation] at hr
      injection hr with hr
      rw [← hr]
      exact pickMinAxis_mem s.bbox
    | some a2 =>
      simp only [resolveOrientation] at hr
      by_cases hv : (axisToPlane (pyUpper a2)).isSome = true
      · rw [if_pos hv] at hr
        injection hr with hr
        rw [← hr]
        exact (axisToPlane_isSome_iff _).mp hv
      · rw [if_neg hv] at hr
        exact absurd hr (by simp)

/-- Witness for C10: a lowercase override behaves as its uppercase form. -/
theorem resolveOrientation_case_insensitive_witness :
    resolveOrientation wallSolid (some "z") = resolveOrientation wallSolid (some "Z") := by
  have h := (resolveOrientation_case_insensitive wallSolid "z").1
  rw [show pyUpper "z" = "Z" from rfl] at h
  exact h

/-- C9: whatever solid `apply_honeycomb` returns is contained in the original
wall region, hence in the wall's bounding envelope — no material is added
outside the original wall's bounding volume — and its volume is at most the
volume of the original wall. -/
theorem applyHoneycomb_bounded (wall : Solid) (cell edge shellT : ℝ) (axis : Option String)
    (out : Set P3) (_hcell : 0 < cell) (_hedge : 0 ≤ edge) (_hshell : 0 < shellT)
    (hwf : wall.region ⊆ bboxSet wall.bbox)
    (hout : applyHoneycomb wall cell edge shellT axis = Except.ok out) :
    out ⊆ bboxSet wall.bbox ∧
    MeasureTheory.volume out ≤ MeasureTheory.volume wall.region := by
  have hsub : out ⊆ wall.region := by
    unfold applyHoneycomb at hout
    cases hres : resolveOrientation wall axis with
    | error e =>
      rw [hres] at hout
      exact absurd hout (by simp)
    | ok o =>
      rw [hres] at hout
      injection hout with hout
      rw [← hout]
      intro p hp
      simp only [Set.mem_union] at hp
      rcases hp with hp | hp
      · exact hp.1
      · exact hp.1
  exact ⟨hsub.trans hwf, MeasureTheory.measure_mono hsub⟩

/-- Witness for C9 at the cube wall with concrete parameters. -/
theorem applyHoneycomb_bounded_witness :
    exampleOut ⊆ bboxSet cubeSolid.bbox ∧
    MeasureTheory.volume exampleOut ≤ MeasureTheory.volume cubeSolid.region :=
  applyHoneycomb_bounded cubeSolid 20 8 1 none exampleOut (by norm_num) (by norm_num)
    (by norm_num) (fun _ hp => hp) rfl

/-- Core coverage inequality, assuming the horizontal offset is at most half
the column pitch: one of the two bracketing lattice points is within the
circumradius. -/
theorem hex_cover_aux (c a b : ℝ) (hc : 0 < c) (ha0 : 0 ≤ a) (ha1 : a ≤ 0.75 * c)
    (hb0 : 0 ≤ b) (hb1 : b ≤ Real.sqrt 3 * c / 2) :
    a ^ 2 + b ^ 2 ≤ c ^ 2 ∨
      (1.5 * c - a) ^ 2 + (Real.sqrt 3 * c / 2 - b) ^ 2 ≤ c ^ 2 := by
  have hs2 : Real.sqrt 3 ^ 2 = 3 := Real.sq_sqrt (by norm_num)
  have hspos : 0 < Real.sqrt 3 := Real.sqrt_pos.mpr (by norm_num)
  by_cases hline : 3 * a + Real.sqrt 3 * b ≤ 3 * c
  · left
    by_cases ha2 : a ≤ c / 2
    · have hb3 : b ^ 2 ≤ (Real.sqrt 3 * c / 2) ^ 2 := pow_le_pow_left₀ hb0 hb1 2
      have hb4 : b ^ 2 ≤ 3 * c ^ 2 / 4 := by nlinarith [hb3, hs2]
      have ha3 : a ^ 2 ≤ (c / 2) ^ 2 := pow_le_pow_left₀ ha0 ha2 2
      nlinarith [hb4, ha3]
    · push_neg at ha2
      have hsb : Real.sqrt 3 * b ≤ 3 * (c - a) := by linarith
      have hb2 : (Real.sqrt 3 * b) ^ 2 ≤ (3 * (c - a)) ^ 2 :=
        pow_le_pow_left₀ (mul_nonneg hspos.le hb0) hsb 2
      have hb4 : 3 * b ^ 2 ≤ 9 * (c - a) ^ 2 := by nlinarith [hb2, hs2]
      have hprod : 0 ≤ (2 * a - c) * (c - a) :=
        mul_nonneg (by linarith) (by linarith)
      nlinarith [hb4, hprod]
  · push_neg at hline
    right
    have hsb2 : Real.sqrt 3 * b ≤ 3 * c / 2 := by
      have h1 : Real.sqrt 3 * b ≤ Real.sqrt 3 * (Real.sqrt 3 * c / 2) :=
        mul_le_mul_of_nonneg_left hb1 hspos.le
      nlinarith [h1, hs2]
    have hx0 : c / 2 ≤ a := by linarith
    have hy0 : 0 ≤ Real.sqrt 3 * c / 2 - b := by linarith
    have hkey : Real.sqrt 3 * (Real.sqrt 3 * c / 2 - b) ≤
        Real.sqrt 3 * (Real.sqrt 3 * (a - c / 2)) := by
      nlinarith [hs2]
    have hyx : Real.sqrt 3 * c / 2 - b ≤ Real.sqrt 3 * (a - c / 2) :=
      le_of_mul_le_mul_left hkey hspos
    have hy2 : (Real.sqrt 3 * c / 2 - b) ^ 2 ≤ (Real.sqrt 3 * (a - c / 2)) ^ 2 :=
      pow_le_pow_left₀ hy0 hyx 2
    have hy3 : (Real.sqrt 3 * c / 2 - b) ^ 2 ≤ 3 * (a - c / 2) ^ 2 := by
      nlinarith [hy2, hs2]
    have hprod : 0 ≤ (a - c / 2) * (c / 4 - (a - c / 2)) :=
      mul_nonneg (by linarith) (by linarith)
    nlinarith [hy3, hprod]

/-- Core coverage inequality for a point inside one lattice cell: the point is
within the circumradius of one of the two staggered corners. -/
theorem hex_cover_core (c a b : ℝ) (hc : 0 < c) (ha0 : 0 ≤ a) (ha1 : a ≤ 1.5 * c)
    (hb0 : 0 ≤ b) (hb1 : b ≤ Real.sqrt 3 * c / 2) :
    a ^ 2 + b ^ 2 ≤ c ^ 2 ∨
      (1.5 * c - a) ^ 2 + (Real.sqrt 3 * c / 2 - b) ^ 2 ≤ c ^ 2 := by
  by_cases ha2 : a ≤ 0.75 * c
  · exact hex_cover_aux c a b hc ha0 ha2 hb0 hb1
  · push_neg at ha2
    rcases hex_cover_aux c (1.5 * c - a) (Real.sqrt 3 * c / 2 - b) hc (by linarith)
      (by linarith) (by linarith) (by linarith) with h | h
    · right
      exact h
    · left
      have e1 : 1.5 * c - (1.5 * c - a) = a := by ring
      have e2 : Real.sqrt 3 * c / 2 - (Real.sqrt 3 * c / 2 - b) = b := by ring
      rw [e1, e2] at h
      exact h

/-- A point of the covered interval is bracketed by two consecutive valid grid
indices. -/
theorem grid_bracket (N : ℕ) (step t : ℝ) (hstep : 0 < step) (hN : 2 ≤ N)
    (h0 : 0 ≤ t) (h1 : t ≤ ((N : ℝ) - 1) * step) :
    ∃ k : ℕ, k + 1 < N ∧ (k : ℝ) * step ≤ t ∧ t ≤ ((k : ℝ) + 1) * step := by
  have hfl : (0 : ℤ) ≤ ⌊t / step⌋ := Int.floor_nonneg.mpr (div_nonneg h0 hstep.le)
  have hcast : ((⌊t / step⌋.toNat : ℕ) : ℝ) = ((⌊t / step⌋ : ℤ) : ℝ) := by
    exact_mod_cast congrArg (Int.cast : ℤ → ℝ) (Int.toNat_of_nonneg hfl)
  by_cases hk : ⌊t / step⌋.toNat + 1 < N
  · refine ⟨⌊t / step⌋.toNat, hk, ?_, ?_⟩
    · rw [hcast]
      have hle := Int.floor_le (t / step)
      have := mul_le_mul_of_nonneg_right hle hstep.le
      calc ((⌊t / step⌋ : ℤ) : ℝ) * step ≤ t / step * step := this
        _ = t := by field_simp
    · rw [hcast]
      have hlt := (Int.lt_floor_add_one (t / step)).le
      have := mul_le_mul_of_nonneg_right hlt hstep.le
      calc t = t / step * step := by field_simp
        _ ≤ (((⌊t / step⌋ : ℤ) : ℝ) + 1) * step := this
  · push_neg at hk
    refine ⟨N - 2, by omega, ?_, ?_⟩
    · have hZ : (N : ℤ) - 1 ≤ ⌊t / step⌋ := by omega
      have hge : ((N : ℝ) - 2) ≤ ((⌊t / step⌋ : ℤ) : ℝ) := by
        have hcle : (((N : ℤ) - 1 : ℤ) : ℝ) ≤ ((⌊t / step⌋ : ℤ) : ℝ) := Int.cast_le.mpr hZ
        push_cast at hcle
        linarith
      have hle := Int.floor_le (t / step)
      have hc2 : ((N - 2 : ℕ) : ℝ) = (N : ℝ) - 2 := by
        push_cast [Nat.cast_sub hN]
        ring
      rw [hc2]
      have h3 : ((N : ℝ) - 2) ≤ t / step := le_trans hge hle
      calc ((N : ℝ) - 2) * step ≤ t / step * step :=
          mul_le_mul_of_nonneg_right h3 hstep.le
        _ = t := by field_simp
    · have hc2 : ((N - 2 : ℕ) : ℝ) = (N : ℝ) - 2 := by
        push_cast [Nat.cast_sub hN]
        ring
      rw [hc2]
      calc t ≤ ((N : ℝ) - 1) * step := h1
        _ = ((N : ℝ) - 2 + 1) * step := by ring

/-- Rewriting a doubled-grid row index into the per-column stagger offset plus
row pitch. -/
theorem stagger_row (c : ℝ) (col2 m : ℕ) (hpar : col2 % 2 = m % 2) :
    (if col2 % 2 = 1 then Real.sqrt 3 * c / 2 else 0) + ((m / 2 : ℕ) : ℝ) * (Real.sqrt 3 * c)
      = (m : ℝ) * (Real.sqrt 3 * c / 2) := by
  by_cases hm : m % 2 = 1
  · rw [if_pos (hpar.trans hm)]
    have h2 : 2 * (m / 2) + 1 = m := by omega
    have h3 := congrArg (Nat.cast : ℕ → ℝ) h2
    push_cast at h3
    linear_combination (Real.sqrt 3 * c / 2) * h3
  · rw [if_neg (by omega : ¬col2 % 2 = 1)]
    have h2 : 2 * (m / 2) = m := by omega
    have h3 := congrArg (Nat.cast : ℕ → ℝ) h2
    push_cast at h3
    linear_combination (Real.sqrt 3 * c / 2) * h3

set_option maxHeartbeats 1600000 in
/-- C1: for positive width, height and cell size, every point of the rectangle
`[-width/2, width/2] x [-height/2, height/2]` lies within distance `cell_size`
(the hexagon circumradius) of at least one center yielded by `_hex_centers` —
full coverage of the bounding rectangle, boundary included. -/
theorem hexCenters_cover (w h c px py : ℝ) (hw : 0 < w) (hh : 0 < h) (hc : 0 < c)
    (hx1 : -(w / 2) ≤ px) (hx2 : px ≤ w / 2)
    (hy1 : -(h / 2) ≤ py) (hy2 : py ≤ h / 2) :
    ∃ q ∈ hexCenters w h c, Real.sqrt ((px - q.1) ^ 2 + (py - q.2) ^ 2) ≤ c := by
  have hspos : 0 < Real.sqrt 3 := Real.sqrt_pos.mpr (by norm_num)
  have hxstep : (0 : ℝ) < 1.5 * c := by linarith
  have hystep : (0 : ℝ) < Real.sqrt 3 * c := mul_pos hspos hc
  obtain ⟨hcols2, hcolspan⟩ := gridCount_spec (w + 2 * c) (1.5 * c) (by linarith) hxstep
  obtain ⟨hrows2, hrowspan⟩ := gridCount_spec (h + 2 * c) (Real.sqrt 3 * c) (by linarith) hystep
  have hcols2n : 2 ≤ nCols w c := hcols2
  have hrows2n : 2 ≤ nRows h c := hrows2
  have hcolspan2 : w + 2 * c ≤ ((nCols w c : ℝ) - 1) * (1.5 * c) := hcolspan
  have hrowspan2 : h + 2 * c ≤ ((nRows h c : ℝ) - 1) * (Real.sqrt 3 * c) := hrowspan
  -- bracket the point between two consecutive columns
  have htx0 : 0 ≤ px - (-(((nCols w c : ℝ) - 1) * (1.5 * c)) / 2) := by linarith
  have htx1 : px - (-(((nCols w c : ℝ) - 1) * (1.5 * c)) / 2)
      ≤ ((nCols w c : ℝ) - 1) * (1.5 * c) := by linarith
  obtain ⟨col, hcolb, hcolle, hcolge⟩ := grid_bracket (nCols w c) (1.5 * c)
    (px - (-(((nCols w c : ℝ) - 1) * (1.5 * c)) / 2)) hxstep hcols2n htx0 htx1
  -- bracket the point between two consecutive rows of the doubled (staggered) grid
  have hrowcast : ((2 * nRows h c - 1 : ℕ) : ℝ) = 2 * (nRows h c : ℝ) - 1 := by
    rw [Nat.cast_sub (by omega : 1 ≤ 2 * nRows h c)]
    push_cast
    ring
  have hty0 : 0 ≤ py - (-(((nRows h c : ℝ) - 1) * (Real.sqrt 3 * c)) / 2) := by linarith
  have hty1 : py - (-(((nRows h c : ℝ) - 1) * (Real.sqrt 3 * c)) / 2)
      ≤ (((2 * nRows h c - 1 : ℕ) : ℝ) - 1) * (Real.sqrt 3 * c / 2) := by
    rw [hrowcast]
    have hexp : (2 * (nRows h c : ℝ) - 1 - 1) * (Real.sqrt 3 * c / 2)
        = ((nRows h c : ℝ) - 1) * (Real.sqrt 3 * c) := by ring
    rw [hexp]
    linarith
  obtain ⟨m, hmb, hmle, hmge⟩ := grid_bracket (2 * nRows h c - 1) (Real.sqrt 3 * c / 2)
    (py - (-(((nRows h c : ℝ) - 1) * (Real.sqrt 3 * c)) / 2)) (by linarith) (by omega) hty0 hty1
  have hmb2 : m + 1 < 2 * nRows h c - 1 := hmb
  -- shared bounds for the in-cell offsets
  have hexpcol : ((col : ℝ) + 1) * (1.5 * c) = (col : ℝ) * (1.5 * c) + 1.5 * c := by ring
  have hexprow : ((m : ℝ) + 1) * (Real.sqrt 3 * c / 2)
      = (m : ℝ) * (Real.sqrt 3 * c / 2) + Real.sqrt 3 * c / 2 := by ring
  have ha0 : 0 ≤ px - (-(((nCols w c : ℝ) - 1) * (1.5 * c)) / 2) - (col : ℝ) * (1.5 * c) := by
    linarith
  have ha1 : px - (-(((nCols w c : ℝ) - 1) * (1.5 * c)) / 2) - (col : ℝ) * (1.5 * c)
      ≤ 1.5 * c := by linarith
  have hb0 : 0 ≤ py - (-(((nRows h c : ℝ) - 1) * (Real.sqrt 3 * c)) / 2)
      - (m : ℝ) * (Real.sqrt 3 * c / 2) := by linarith
  have hb1 : py - (-(((nRows h c : ℝ) - 1) * (Real.sqrt 3 * c)) / 2)
      - (m : ℝ) * (Real.sqrt 3 * c / 2) ≤ Real.sqrt 3 * c / 2 := by linarith
  -- concluding helper: a squared-distance bound at valid indices gives the goal
  have finish2 : ∀ col2 row2 : ℕ, col2 < nCols w c → row2 < nRows h c →
      (px - (hexCenter w h c col2 row2).1) ^ 2 + (py - (hexCenter w h c col2 row2).2) ^ 2
        ≤ c ^ 2 →
      ∃ q ∈ hexCenters w h c, Real.sqrt ((px - q.1) ^ 2 + (py - q.2) ^ 2) ≤ c := by
    intro col2 row2 hc2 hr2 hd
    refine ⟨hexCenter w h c col2 row2,
      (mem_hexCenters w h c _).mpr ⟨col2, hc2, row2, hr2, rfl⟩, ?_⟩
    calc Real.sqrt ((px - (hexCenter w h c col2 row2).1) ^ 2
            + (py - (hexCenter w h c col2 row2).2) ^ 2)
        ≤ Real.sqrt (c ^ 2) := Real.sqrt_le_sqrt hd
      _ = c := Real.sqrt_sq hc.le
  -- the y coordinate of a center with matching doubled-grid parity
  have hsnd : ∀ col2 m2 : ℕ, col2 % 2 = m2 % 2 →
      (hexCenter w h c col2 (m2 / 2)).2 =
        -(((nRows h c : ℝ) - 1) * (Real.sqrt 3 * c)) / 2
          + (m2 : ℝ) * (Real.sqrt 3 * c / 2) := by
    intro col2 m2 hpar
    have hform : (hexCenter w h c col2 (m2 / 2)).2 =
        -(((nRows h c : ℝ) - 1) * (Real.sqrt 3 * c)) / 2 +
          ((if col2 % 2 = 1 then Real.sqrt 3 * c / 2 else 0)
            + ((m2 / 2 : ℕ) : ℝ) * (Real.sqrt 3 * c)) := by
      simp only [hexCenter]
      ring
    rw [hform, stagger_row c col2 m2 hpar]
  have hfst : ∀ col2 row2 : ℕ, (hexCenter w h c col2 row2).1 =
      -(((nCols w c : ℝ) - 1) * (1.5 * c)) / 2 + (col2 : ℝ) * (1.5 * c) := fun _ _ => rfl
  have hrowA : m / 2 < nRows h c := by omega
  have hrowB : (m + 1) / 2 < nRows h c := by omega
  by_cases hpc : col % 2 = m % 2
  · -- candidates: (col, m/2) at offset (a, b); (col+1, (m+1)/2) at the complement
    rcases hex_cover_core c
        (px - (-(((nCols w c : ℝ) - 1) * (1.5 * c)) / 2) - (col : ℝ) * (1.5 * c))
        (py - (-(((nRows h c : ℝ) - 1) * (Real.sqrt 3 * c)) / 2)
          - (m : ℝ) * (Real.sqrt 3 * c / 2)) hc ha0 ha1 hb0 hb1 with hd | hd
    · apply finish2 col (m / 2) (by omega) hrowA
      rw [hfst col (m / 2), hsnd col m hpc]
      ring_nf at hd ⊢
      linarith
    · apply finish2 (col + 1) ((m + 1) / 2) (by omega) hrowB
      have hparB : (col + 1) % 2 = (m + 1) % 2 := by omega
      rw [hfst (col + 1) ((m + 1) / 2), hsnd (col + 1) (m + 1) hparB]
      push_cast
      ring_nf at hd ⊢
      linarith
  · -- candidates: (col+1, m/2) at offset (1.5c - a, b); (col, (m+1)/2) at the complement
    have hparA : (col + 1) % 2 = m % 2 := by omega
    have hparB : col % 2 = (m + 1) % 2 := by omega
    rcases hex_cover_core c
        (1.5 * c - (px - (-(((nCols w c : ℝ) - 1) * (1.5 * c)) / 2) - (col : ℝ) * (1.5 * c)))
        (py - (-(((nRows h c : ℝ) - 1) * (Real.sqrt 3 * c)) / 2)
          - (m : ℝ) * (Real.sqrt 3 * c / 2)) hc (by linarith) (by linarith) hb0 hb1 with hd | hd
    · apply finish2 (col + 1) (m / 2) (by omega) hrowA
      rw [hfst (col + 1) (m / 2), hsnd (col + 1) m hparA]
      push_cast
      ring_nf at hd ⊢
      linarith
    · apply finish2 col ((m + 1) / 2) (by omega) hrowB
      rw [hfst col ((m + 1) / 2), hsnd col (m + 1) hparB]
      push_cast
      ring_nf at hd ⊢
      linarith

/-- Witness for C1: the origin is covered in the unit configuration. -/
theorem hexCenters_cover_witness :
    ∃ q ∈ hexCenters 1 1 1, Real.sqrt ((0 - q.1) ^ 2 + (0 - q.2) ^ 2) ≤ 1 :=
  hexCenters_cover 1 1 1 0 0 (by norm_num) (by norm_num) (by norm_num)
    (by norm_num) (by norm_num) (by norm_num) (by norm_num)
